import Mathlib

/-!
Verification of the tunequest card creator (a single-file React application,
`src/App.tsx`) against its natural-language specification.

The development shallowly embeds the data model and the pure logic of the
application:

* the two regular expressions at the top of `App.tsx`
  (`playlistRegex`, with flags `g` and `m`, and `trackUrlRegex`, flagless)
  are embedded as explicit matchers over `List Char`, including the
  statefulness of `exec` on a global (`g`-flagged) regex via an explicit
  `lastIndex` argument;
* `arrayChunks`, the override-index construction, the override merge, the
  paginated fetch loop of `getPlaylist` and the change handler of the
  override textarea are embedded as pure functions;
* the layout of the generated document (page groups of 12, rows of 3,
  mirrored back pages, per-card scannable code) is embedded as functions
  producing the rendered orders.

Machine integers do not occur: all quantities are list lengths and offsets,
which the source manipulates as exact JavaScript numbers in ranges far below
2^53.
-/

set_option autoImplicit false

namespace TuneQuest

/-! ### Characters and literal matching

`idChar` is the character class `[a-zA-Z0-9-]` used by both regexes.
`Char.isAlphanum` is exactly ASCII `[a-zA-Z0-9]`.
-/

def idChar (c : Char) : Bool := c.isAlphanum || c = '-'

/-- Match a literal pattern at the head of the input; on success return the
remainder of the input.  This is the building block for both embedded
regexes. -/
def leadsWith : List Char → List Char → Option (List Char)
  | [], s => some s
  | _ :: _, [] => none
  | p :: ps, c :: cs => if p = c then leadsWith ps cs else none

/-! ### The `trackUrlRegex`

`/^(https:\/\/open\.spotify\.com\/(episode|track)\/[a-zA-Z0-9-]+).*$/` with
no flags: anchored at position 0; `.` does not match a newline and `$`
matches only the end of the input, so the trailing `.*$` succeeds exactly
when no newline follows; group 1 is the prefix up to the end of the
(greedy, hence maximal) id run.
-/

def spotifyBase : List Char := "https://open.spotify.com/".data

/-- Try one alternative (`episode` or `track`) of `trackUrlRegex` and
return the text of capture group 1 on success. -/
def tryTrackKind (kind : List Char) (s : List Char) : Option (List Char) :=
  match leadsWith (spotifyBase ++ kind ++ ['/']) s with
  | none => none
  | some rest =>
    let tid := rest.takeWhile idChar
    if tid.isEmpty then none
    else if (rest.drop tid.length).all (fun c => decide (c ≠ '\n')) then
      some (spotifyBase ++ kind ++ ['/'] ++ tid)
    else none

/-- `trackUrlRegex.exec(s)` restricted to group 1: the alternation tries
`episode` first, then `track`. -/
def trackMatch (s : List Char) : Option (List Char) :=
  match tryTrackKind "episode".data s with
  | some r => some r
  | none => tryTrackKind "track".data s

/-- Key derivation for the override index (`App.tsx` lines 104-114): the
matched prefix when `trackUrlRegex` matches the link, the link verbatim
otherwise. -/
def deriveKey (link : String) : String :=
  match trackMatch link.data with
  | some cap => String.mk cap
  | none => link

/-! ### The `playlistRegex`

`/^https:\/\/open\.spotify\.com\/playlist\/([a-zA-Z0-9-]+).*$/gm`.  With the
`m` flag, `^` matches at position 0 or right after a newline, and `$` at the
end of the input or right before a newline; `.` still does not match a
newline.  With the `g` flag, `exec` is stateful: it searches for the
leftmost match at a position `≥ lastIndex`; on success it sets `lastIndex`
to the end of the match, on failure it resets `lastIndex` to 0.
-/

def playlistBase : List Char := "https://open.spotify.com/playlist/".data

/-- `^` of a multiline regex: position 0 or right after a newline. -/
def lineStart (s : List Char) (p : Nat) : Bool :=
  p = 0 || s.get? (p - 1) = some '\n'

/-- Try to match `playlistRegex`'s pattern at position `p`; on success
return (capture group 1, end position of the whole match). -/
def playlistMatchAt (s : List Char) (p : Nat) : Option (List Char × Nat) :=
  if lineStart s p then
    match leadsWith playlistBase (s.drop p) with
    | none => none
    | some rest =>
      let pid := rest.takeWhile idChar
      if pid.isEmpty then none
      else
        let lineRest := (rest.drop pid.length).takeWhile (fun c => decide (c ≠ '\n'))
        some (pid, p + playlistBase.length + pid.length + lineRest.length)
  else none

/-- Scan positions `p, p+1, ...` (structurally on a fuel that callers set to
cover the whole input) for the first match of `playlistRegex`. -/
def scanFrom (s : List Char) : Nat → Nat → Option (List Char × Nat)
  | 0, _ => none
  | fuel + 1, p =>
    match playlistMatchAt s p with
    | some r => some r
    | none => scanFrom s fuel (p + 1)

/-- `playlistRegex.exec(s)` with the global regex's persistent `lastIndex`:
returns (group 1 of the match if any, the new `lastIndex`). -/
def execPlaylist (s : List Char) (lastIndex : Nat) : Option (List Char) × Nat :=
  match scanFrom s (s.length + 1 - lastIndex) lastIndex with
  | some (cap, matchEnd) => (some cap, matchEnd)
  | none => (none, 0)

/-! ### Data model

The fetch requests the field projection
`offset,limit,next,items(track(id,name,artists(name),album(release_date),type,external_urls),added_at)`,
so the embedded `Track` carries exactly the projected fields; `external_urls`
is the object `{ spotify: <canonical url> }`.
-/

structure Artist where
  name : String
deriving DecidableEq

structure Album where
  release_date : String
deriving DecidableEq

structure ExternalUrls where
  spotify : String
deriving DecidableEq

structure Track where
  id : String
  name : String
  artists : List Artist
  album : Album
  type : String
  external_urls : ExternalUrls
deriving DecidableEq

structure PlaylistedTrack where
  track : Track
  added_at : String
deriving DecidableEq

/-- An override item of the user-supplied JSON array (`App.tsx` lines
18-23).  A field that is absent from the JSON or empty is modelled as the
empty string; both are falsy in the `if (override.field)` guards of the
merge. -/
structure OverrideItem where
  link : String
  date : String
  artist : String
  name : String
deriving DecidableEq

/-! ### Override index and merge (`App.tsx` lines 99-127) -/

/-- `overrides[key] = item` over the items in array order: the JS object is
modelled as a partial map from keys to items, so a later item with the same
derived key overwrites an earlier one. -/
def buildOverrides (l : List OverrideItem) : String → Option OverrideItem :=
  l.foldl (fun m it => fun k => if k = deriveKey it.link then some it else m k)
    (fun _ => none)

/-- The per-entry override merge (`App.tsx` lines 116-127): look the track's
canonical URL up in the index; replace the name when the override name is
non-empty, replace the artists array by the singleton
`[{...artists[0], name: override.artist}]` when the override artist is
non-empty (the fetched artists carry only `name`, so the spread contributes
nothing else), replace the album release date when the override date is
non-empty. -/
def applyOverride (ov : String → Option OverrideItem) (it : PlaylistedTrack) :
    PlaylistedTrack :=
  match ov it.track.external_urls.spotify with
  | none => it
  | some o =>
    let t0 := it.track
    let t1 := if o.name = "" then t0 else { t0 with name := o.name }
    let t2 := if o.artist = "" then t1 else { t1 with artists := [Artist.mk o.artist] }
    let t3 := if o.date = "" then t2 else { t2 with album := Album.mk o.date }
    { it with track := t3 }

def applyOverrides (ov : String → Option OverrideItem)
    (items : List PlaylistedTrack) : List PlaylistedTrack :=
  items.map (applyOverride ov)

/-! ### The paginated fetch loop (`App.tsx` lines 86-95) -/

/-- One page returned by `sdk.playlists.getPlaylistItems`: the projected
fields the loop consumes (`items`, the reported `limit`, and the next-page
indicator `next`, `null` when no page follows). -/
structure PageResult where
  items : List PlaylistedTrack
  limit : Nat
  next : Option String
deriving DecidableEq

/-- The do/while loop: request the page at the current offset with requested
page size 50, append its items, advance the offset by the page's reported
limit, stop when `next` is `null`.  The loop is given fuel; the Bool records
whether it terminated by seeing `next = null` (the only way the real loop
returns).  Also records the (requested limit, offset) of every issued
request, in order. -/
def fetchLoop (api : Nat → Nat → PageResult) :
    Nat → Nat → List PlaylistedTrack × List (Nat × Nat) × Bool
  | 0, _ => ([], [], false)
  | fuel + 1, offset =>
    let r := api 50 offset
    if r.next.isNone then (r.items, [(50, offset)], true)
    else
      let rest := fetchLoop api fuel (offset + r.limit)
      (r.items ++ rest.1, (50, offset) :: rest.2.1, rest.2.2)

/-- The offset of the i-th request when the loop is started at offset `o`:
each request's offset is the previous one plus the previous page's reported
limit. -/
def offSeqFrom (api : Nat → Nat → PageResult) (o : Nat) : Nat → Nat
  | 0 => o
  | i + 1 => offSeqFrom api o i + (api 50 (offSeqFrom api o i)).limit

/-! ### `getPlaylist` (`App.tsx` lines 80-129) -/

/-- The component state that `getPlaylist` reads and writes: the persistent
`lastIndex` of the module-level global `playlistRegex`, the displayed track
list (`playlistItems`, `null` before the first successful fetch), and the
override-JSON error message (never touched by `getPlaylist`). -/
structure AppState where
  lastIndex : Nat
  playlistItems : Option (List PlaylistedTrack)
  overrideJsonErrorMessage : String
deriving DecidableEq

/-- `getPlaylist`: run `playlistRegex.exec(url)` against the persistent
`lastIndex`; on no match return immediately (no request, no error, list
unchanged).  On a match run the fetch loop from offset 0 against the API
(curried over the captured playlist id), and, when the loop finished by
seeing `next = null`, commit the override-merged items; a loop that is still
in flight (fuel exhausted) commits nothing.  Returns the new state and the
list of issued page requests. -/
def getPlaylist (api : List Char → Nat → Nat → PageResult)
    (overrideJson : List OverrideItem) (fuel : Nat) (st : AppState)
    (url : String) : AppState × List (Nat × Nat) :=
  match execPlaylist url.data st.lastIndex with
  | (none, li) => ({ st with lastIndex := li }, [])
  | (some pid, li) =>
    let res := fetchLoop (api pid) fuel 0
    if res.2.2 then
      ({ st with
          lastIndex := li,
          playlistItems := some (applyOverrides (buildOverrides overrideJson) res.1) },
        res.2.1)
    else ({ st with lastIndex := li }, res.2.1)

/-! ### The override textarea handler (`App.tsx` lines 67-78) -/

/-- The state touched by `handleOverrideChange`: the mutable ref value
holding the last successfully parsed override JSON, the error message, and
the raw textarea text. -/
structure OverrideUiState (J : Type) where
  overrideJsonValue : J
  overrideJsonErrorMessage : String
  overrideText : String
deriving DecidableEq

/-- `handleOverrideChange`: attempt `JSON.parse` (modelled as an arbitrary
`parse` function, `none` standing for a thrown `SyntaxError`); on success
store the parsed value and clear the error message, on failure keep the
previous value and set the message `Invalid JSON!`; the raw text is stored
either way. -/
def handleOverrideChange {J : Type} (parse : String → Option J)
    (st : OverrideUiState J) (input : String) : OverrideUiState J :=
  match parse input with
  | some v =>
    { overrideJsonValue := v, overrideJsonErrorMessage := "", overrideText := input }
  | none =>
    { st with overrideJsonErrorMessage := "Invalid JSON!", overrideText := input }

/-! ### Card layout (`App.tsx` lines 13-16 and 274-541) -/

/-- `arrayChunks` (`App.tsx` lines 13-16):
`Array(Math.ceil(n / c)).fill(null).map((_, i) => i*c).map(b => a.slice(b, b+c))`.
`slice(b, b+c)` is `drop b` then `take c`.  The source fixes the element
type to `PlaylistedTrack<Track>[]` but never inspects elements, so the
embedding is polymorphic. -/
def arrayChunks {α : Type} (array : List α) (chunkSize : Nat) : List (List α) :=
  (List.range ((array.length + chunkSize - 1) / chunkSize)).map
    (fun index => (array.drop (index * chunkSize)).take chunkSize)

/-- The page groups: `arrayChunks(playlistItems, 12)`; each group yields one
front page and one back page. -/
def pageGroups (items : List PlaylistedTrack) : List (List PlaylistedTrack) :=
  arrayChunks items 12

/-- The rows of a front page: `arrayChunks(pageChunks, 3)`, each row laid
out left-to-right (`flexDirection: row`). -/
def frontRows (g : List PlaylistedTrack) : List (List PlaylistedTrack) :=
  arrayChunks g 3

/-- The rows of the matching back page: the same `arrayChunks(pageChunks, 3)`
laid out with `flexDirection: row-reverse`, i.e. each row is rendered in the
horizontally mirrored order. -/
def backRows (g : List PlaylistedTrack) : List (List PlaylistedTrack) :=
  (arrayChunks g 3).map List.reverse

/-- The scannable code on a back-page card: either a locally generated QR
code carrying a payload string, or a remote image fetched from a URL. -/
inductive CardCode where
  | qr (payload : String)
  | scannable (url : String)
deriving DecidableEq

/-- The code rendered for one card (`App.tsx` lines 455-483): when the
selected code type is `qr`, a QR code with payload `spotify:track:<id>`
(the string handed to `generateSessionPDFQrCode`); otherwise the remote
scannable image URL built from the track id. -/
def backCardCode (codeType : String) (trackId : String) : CardCode :=
  if codeType = "qr" then CardCode.qr ("spotify:track:" ++ trackId)
  else
    CardCode.scannable
      ("https://scannables.scdn.co/uri/plain/jpeg/FFFFFF/black/320/spotify:track:"
        ++ trackId)

/-- All back pages of the document, as the rendered order of codes: one
group per page, the group's mirrored rows, one code per present card. -/
def backCodePages (items : List PlaylistedTrack) (codeType : String) :
    List (List (List CardCode)) :=
  (pageGroups items).map
    (fun g => (backRows g).map (fun row => row.map (fun it => backCardCode codeType it.track.id)))

/-! ## Helper lemmas on the literal matcher -/

theorem leadsWith_prepend (l : List Char) : ∀ (p s : List Char),
    leadsWith (l ++ p) (l ++ s) = leadsWith p s := by
  induction l with
  | nil => intro p s; rfl
  | cons a t ih => intro p s; simp [leadsWith, ih]

theorem leadsWith_refl_append (p s : List Char) : leadsWith p (p ++ s) = some s := by
  have h := leadsWith_prepend p [] s
  simpa using h

theorem takeWhile_append_of (p : Char → Bool) :
    ∀ (l r : List Char), (∀ c ∈ l, p c = true) →
      (∀ c, r.head? = some c → p c = false) → (l ++ r).takeWhile p = l
  | [], r, _, hr => by
    cases r with
    | nil => rfl
    | cons c t => simp [List.takeWhile_cons, hr c rfl]
  | a :: t, r, hl, hr => by
    have ha : p a = true := hl a (by simp)
    simp only [List.cons_append, List.takeWhile_cons, ha, if_true]
    have := takeWhile_append_of p t r (fun c hc => hl c (by simp [hc])) hr
    simp [this]

/-! ## C1: override key derivation -/

theorem tryTrackKind_of_structured (kind tid rest : List Char)
    (htid : tid ≠ []) (hid : ∀ c ∈ tid, idChar c = true)
    (hrest : ∀ c ∈ rest, c ≠ '\n')
    (hhead : ∀ c, rest.head? = some c → idChar c = false) :
    tryTrackKind kind (spotifyBase ++ kind ++ ['/'] ++ tid ++ rest)
      = some (spotifyBase ++ kind ++ ['/'] ++ tid) := by
  have h1 : leadsWith (spotifyBase ++ kind ++ ['/'])
      (spotifyBase ++ kind ++ ['/'] ++ tid ++ rest) = some (tid ++ rest) := by
    have h := leadsWith_refl_append (spotifyBase ++ kind ++ ['/']) (tid ++ rest)
    simpa [List.append_assoc] using h
  have h2 : (tid ++ rest).takeWhile idChar = tid :=
    takeWhile_append_of idChar tid rest hid hhead
  have h3 : tid.isEmpty = false := by
    simpa [List.isEmpty_iff] using htid
  have h4 : ((tid ++ rest).drop tid.length).all (fun c => decide (c ≠ '\n')) = true := by
    rw [List.drop_left]
    rw [List.all_eq_true]
    intro c hc
    simpa using hrest c hc
  simp only [tryTrackKind, h1, h2, h3, h4]
  simp

theorem tryTrackKind_episode_on_track (tid rest : List Char) :
    tryTrackKind "episode".data
      (spotifyBase ++ "track".data ++ ['/'] ++ tid ++ rest) = none := by
  have h0 : leadsWith (spotifyBase ++ "episode".data ++ ['/'])
      (spotifyBase ++ "track".data ++ ['/'] ++ tid ++ rest) = none := by
    have ht : "track".data = 't' :: "rack".data := by decide
    have hl : spotifyBase ++ "episode".data ++ ['/']
        = spotifyBase ++ ('e' :: ("pisode".data ++ ['/'])) := by decide
    have hr : spotifyBase ++ "track".data ++ ['/'] ++ tid ++ rest
        = spotifyBase ++ ('t' :: ("rack".data ++ (['/'] ++ (tid ++ rest)))) := by
      rw [ht]
      simp [List.append_assoc]
    rw [hl, hr, leadsWith_prepend]
    simp only [leadsWith]
    rw [if_neg (by decide)]
  simp only [tryTrackKind, h0]

theorem trackMatch_of_structured (kind tid rest : List Char)
    (hkind : kind = "episode".data ∨ kind = "track".data)
    (htid : tid ≠ []) (hid : ∀ c ∈ tid, idChar c = true)
    (hrest : ∀ c ∈ rest, c ≠ '\n')
    (hhead : ∀ c, rest.head? = some c → idChar c = false) :
    trackMatch (spotifyBase ++ kind ++ ['/'] ++ tid ++ rest)
      = some (spotifyBase ++ kind ++ ['/'] ++ tid) := by
  cases hkind with
  | inl h =>
    subst h
    simp only [trackMatch,
      tryTrackKind_of_structured _ tid rest htid hid hrest hhead]
  | inr h =>
    subst h
    simp only [trackMatch, tryTrackKind_episode_on_track tid rest,
      tryTrackKind_of_structured _ tid rest htid hid hrest hhead]

/-- C1: for every override item, the derived lookup key is the matched
prefix `https://open.spotify.com/(episode|track)/<id>` (trailing path/query
stripped) when the link matches `trackUrlRegex`, and the link verbatim
otherwise; in particular `https://open.spotify.com/track/ABC123?si=xyz`
yields `https://open.spotify.com/track/ABC123`, and
`https://open.spotify.com/track/ABC123` yields itself. -/
theorem C1_override_key_derivation :
    (∀ (kind tid rest : String), (kind = "episode" ∨ kind = "track") →
      tid.data ≠ [] → (∀ c ∈ tid.data, idChar c = true) →
      (∀ c ∈ rest.data, c ≠ '\n') →
      rest.data.head?.all (fun c => ! idChar c) = true →
      deriveKey ("https://open.spotify.com/" ++ kind ++ "/" ++ tid ++ rest)
        = "https://open.spotify.com/" ++ kind ++ "/" ++ tid)
    ∧ (∀ link : String, trackMatch link.data = none → deriveKey link = link)
    ∧ deriveKey "https://open.spotify.com/track/ABC123?si=xyz"
        = "https://open.spotify.com/track/ABC123"
    ∧ deriveKey "https://open.spotify.com/track/ABC123"
        = "https://open.spotify.com/track/ABC123" := by
  refine ⟨?_, ?_, by decide, by decide⟩
  · intro kind tid rest hkind htid hid hrest hheadAll
    have hhead : ∀ c, rest.data.head? = some c → idChar c = false := by
      intro c hc
      rw [hc] at hheadAll
      simpa using hheadAll
    have hdata : ("https://open.spotify.com/" ++ kind ++ "/" ++ tid ++ rest).data
        = spotifyBase ++ kind.data ++ ['/'] ++ tid.data ++ rest.data := by
      simp only [String.data_append]
      rfl
    have hkind2 : kind.data = "episode".data ∨ kind.data = "track".data := by
      cases hkind with
      | inl h => exact Or.inl (by rw [h])
      | inr h => exact Or.inr (by rw [h])
    have hmatch := trackMatch_of_structured kind.data tid.data rest.data hkind2
      htid hid hrest hhead
    simp only [deriveKey, hdata, hmatch]
    apply String.ext
    simp only [String.data_append]
    rfl
  · intro link hnone
    simp only [deriveKey, hnone]

theorem C1_override_key_derivation_witness :
    deriveKey ("https://open.spotify.com/" ++ "track" ++ "/" ++ "XY" ++ "?si=1")
      = "https://open.spotify.com/" ++ "track" ++ "/" ++ "XY" :=
  C1_override_key_derivation.1 "track" "XY" "?si=1" (Or.inr rfl)
    (by decide) (by decide) (by decide) (by decide)

/-! ## C2: field-wise override merge -/

/-- C2: for a fetched track whose canonical URL is found in the override
index, the merge replaces name and release date exactly when the respective
override field is non-empty, leaves artists untouched when the override
artist is empty, never touches id, canonical URL or the added timestamp; an
override with only the date set changes only the album release date, and an
all-empty override leaves the entry identical to the original. -/
theorem C2_merge_per_field (ov : String → Option OverrideItem)
    (it : PlaylistedTrack) (o : OverrideItem)
    (hfound : ov it.track.external_urls.spotify = some o) :
    ((o.name = "" → (applyOverride ov it).track.name = it.track.name)
      ∧ (o.name ≠ "" → (applyOverride ov it).track.name = o.name))
    ∧ (o.artist = "" → (applyOverride ov it).track.artists = it.track.artists)
    ∧ ((o.date = "" → (applyOverride ov it).track.album = it.track.album)
      ∧ (o.date ≠ "" → (applyOverride ov it).track.album.release_date = o.date))
    ∧ ((applyOverride ov it).track.id = it.track.id
      ∧ (applyOverride ov it).track.external_urls = it.track.external_urls
      ∧ (applyOverride ov it).track.type = it.track.type
      ∧ (applyOverride ov it).added_at = it.added_at)
    ∧ (o.name = "" ∧ o.artist = "" ∧ o.date ≠ "" →
        applyOverride ov it
          = { it with track := { it.track with album := Album.mk o.date } })
    ∧ (o.name = "" ∧ o.artist = "" ∧ o.date = "" → applyOverride ov it = it) := by
  simp only [applyOverride, hfound]
  by_cases hn : o.name = "" <;> by_cases ha : o.artist = "" <;>
    by_cases hd : o.date = "" <;>
    simp [hn, ha, hd]

theorem C2_merge_per_field_witness :
    ((fun k => if k = "u" then
        some (OverrideItem.mk "u" "2004" "" "") else none) "u"
      = some (OverrideItem.mk "u" "2004" "" ""))
    ∧ applyOverride
        (fun k => if k = "u" then some (OverrideItem.mk "u" "2004" "" "") else none)
        (PlaylistedTrack.mk
          (Track.mk "id0" "song" [Artist.mk "A", Artist.mk "B"] (Album.mk "1999")
            "track" (ExternalUrls.mk "u")) "2020-01-01")
      = PlaylistedTrack.mk
          (Track.mk "id0" "song" [Artist.mk "A", Artist.mk "B"] (Album.mk "2004")
            "track" (ExternalUrls.mk "u")) "2020-01-01" := by
  refine ⟨by decide, ?_⟩
  have h := (C2_merge_per_field
    (fun k => if k = "u" then some (OverrideItem.mk "u" "2004" "" "") else none)
    (PlaylistedTrack.mk
      (Track.mk "id0" "song" [Artist.mk "A", Artist.mk "B"] (Album.mk "1999")
        "track" (ExternalUrls.mk "u")) "2020-01-01")
    (OverrideItem.mk "u" "2004" "" "") (by decide)).2.2.2.2.1
  simpa using h (by exact ⟨rfl, rfl, by decide⟩)

/-! ## C4: artist replacement drops the tail of the artist list -/

/-- C4, counterexample: the claim says a non-empty override artist leaves
the artist-list length and the entries after the first unaltered; on a track
with two artists the merge produces a one-element artist list. -/
theorem C4_artist_tail_counterexample :
    ¬ ((applyOverride
          (fun k => if k = "u" then some (OverrideItem.mk "u" "" "X" "") else none)
          (PlaylistedTrack.mk
            (Track.mk "id0" "song" [Artist.mk "A", Artist.mk "B"] (Album.mk "1999")
              "track" (ExternalUrls.mk "u")) "2020-01-01")).track.artists.length
        = (PlaylistedTrack.mk
            (Track.mk "id0" "song" [Artist.mk "A", Artist.mk "B"] (Album.mk "1999")
              "track" (ExternalUrls.mk "u")) "2020-01-01").track.artists.length) := by
  decide

/-- C4, amended: when the override of a matched track has a non-empty artist
field, the merge replaces the whole artist list by the single-element list
containing one artist whose name is the override artist (the fetched artists
carry only a name, so the spread of the first original artist contributes
nothing else); entries after the first are dropped. -/
theorem C4_artist_replacement (ov : String → Option OverrideItem)
    (it : PlaylistedTrack) (o : OverrideItem)
    (hfound : ov it.track.external_urls.spotify = some o)
    (ha : o.artist ≠ "") :
    (applyOverride ov it).track.artists = [Artist.mk o.artist] := by
  simp only [applyOverride, hfound]
  by_cases hn : o.name = "" <;> by_cases hd : o.date = "" <;> simp [hn, ha, hd]

theorem C4_artist_replacement_witness :
    (applyOverride
        (fun k => if k = "u" then some (OverrideItem.mk "u" "" "X" "") else none)
        (PlaylistedTrack.mk
          (Track.mk "id0" "song" [Artist.mk "A", Artist.mk "B"] (Album.mk "1999")
            "track" (ExternalUrls.mk "u")) "2020-01-01")).track.artists
      = [Artist.mk "X"] :=
  C4_artist_replacement
    (fun k => if k = "u" then some (OverrideItem.mk "u" "" "X" "") else none)
    (PlaylistedTrack.mk
      (Track.mk "id0" "song" [Artist.mk "A", Artist.mk "B"] (Album.mk "1999")
        "track" (ExternalUrls.mk "u")) "2020-01-01")
    (OverrideItem.mk "u" "" "X" "") (by decide) (by decide)

/-! ## C3: the paginated fetch loop -/

theorem offSeqFrom_shift (api : Nat → Nat → PageResult) (o : Nat) :
    ∀ i, offSeqFrom api (o + (api 50 o).limit) i = offSeqFrom api o (i + 1) := by
  intro i
  induction i with
  | zero => rfl
  | succ i ih => simp [offSeqFrom, ih]

theorem map_range_succ {α : Type} (k : Nat) (g : Nat → α) :
    (List.range (k + 1)).map g = g 0 :: (List.range k).map (g ∘ Nat.succ) := by
  rw [List.range_succ_eq_map, List.map_cons, List.map_map]

theorem fetchLoop_pages (api : Nat → Nat → PageResult) :
    ∀ (k o fuel : Nat), 0 < k → k ≤ fuel →
      (∀ i, i < k - 1 → (api 50 (offSeqFrom api o i)).next ≠ none) →
      (api 50 (offSeqFrom api o (k - 1))).next = none →
      fetchLoop api fuel o
        = (((List.range k).map (fun i => (api 50 (offSeqFrom api o i)).items)).flatten,
           (List.range k).map (fun i => (50, offSeqFrom api o i)),
           true) := by
  intro k
  induction k with
  | zero => intro o fuel hk; omega
  | succ k ih =>
    intro o fuel hk hfuel hnext hlast
    cases fuel with
    | zero => omega
    | succ f =>
      cases k with
      | zero =>
        have hl : (api 50 o).next = none := hlast
        simp only [fetchLoop, hl, Option.isNone_none, if_true, Prod.mk.injEq]
        rw [map_range_succ 0 (fun i => (api 50 (offSeqFrom api o i)).items),
          map_range_succ 0 (fun i => ((50 : Nat), offSeqFrom api o i))]
        simp [offSeqFrom]
      | succ k2 =>
        have hne : (api 50 o).next ≠ none := hnext 0 (by omega)
        cases hn2 : (api 50 o).next with
        | none => exact absurd hn2 hne
        | some s =>
          have hnext2 : ∀ i, i < (k2 + 1) - 1 →
              (api 50 (offSeqFrom api (o + (api 50 o).limit) i)).next ≠ none := by
            intro i hi
            rw [offSeqFrom_shift]
            exact hnext (i + 1) (by omega)
          have hlast2 :
              (api 50 (offSeqFrom api (o + (api 50 o).limit) ((k2 + 1) - 1))).next
                = none := by
            rw [offSeqFrom_shift]
            exact hlast
          have ihres := ih (o + (api 50 o).limit) f (by omega) (by omega) hnext2 hlast2
          have hfunItems :
              (fun i => (api 50 (offSeqFrom api (o + (api 50 o).limit) i)).items)
                = (fun i => (api 50 (offSeqFrom api o i)).items) ∘ Nat.succ := by
            funext i
            simp [offSeqFrom_shift api o i, Function.comp]
          have hfunReqs :
              (fun i => ((50 : Nat), offSeqFrom api (o + (api 50 o).limit) i))
                = (fun i => ((50 : Nat), offSeqFrom api o i)) ∘ Nat.succ := by
            funext i
            simp [offSeqFrom_shift api o i, Function.comp]
          simp only [fetchLoop, hn2, Option.isNone_some, Bool.false_eq_true,
            if_false, ihres, hfunItems, hfunReqs, Prod.mk.injEq]
          refine ⟨?_, ?_, trivial⟩
          · rw [map_range_succ (k2 + 1) (fun i => (api 50 (offSeqFrom api o i)).items),
              List.flatten_cons]
            rfl
          · rw [map_range_succ (k2 + 1) (fun i => ((50 : Nat), offSeqFrom api o i))]
            rfl

/-- C3: for a playlist requiring k pages, the loop issues exactly k
sequential requests with requested page size 50, the first at offset 0 and
each subsequent offset being the previous offset plus the previous page's
reported limit, terminates on the first page whose next-page indicator is
null, and aggregates the pages' items in order. -/
theorem C3_pagination (api : Nat → Nat → PageResult) (k fuel : Nat)
    (hk : 0 < k) (hfuel : k ≤ fuel)
    (hnext : ∀ i, i < k - 1 → (api 50 (offSeqFrom api 0 i)).next ≠ none)
    (hlast : (api 50 (offSeqFrom api 0 (k - 1))).next = none) :
    fetchLoop api fuel 0
      = (((List.range k).map (fun i => (api 50 (offSeqFrom api 0 i)).items)).flatten,
         (List.range k).map (fun i => (50, offSeqFrom api 0 i)),
         true)
    ∧ offSeqFrom api 0 0 = 0
    ∧ (∀ i, offSeqFrom api 0 (i + 1)
        = offSeqFrom api 0 i + (api 50 (offSeqFrom api 0 i)).limit) :=
  ⟨fetchLoop_pages api k 0 fuel hk hfuel hnext hlast, rfl, fun _ => rfl⟩

theorem C3_pagination_witness :
    fetchLoop
      (fun _ o => if o = 0
        then PageResult.mk
          [PlaylistedTrack.mk
            (Track.mk "a" "s1" [Artist.mk "A"] (Album.mk "1999") "track"
              (ExternalUrls.mk "u1")) "t1"] 50 (some "n")
        else PageResult.mk
          [PlaylistedTrack.mk
            (Track.mk "b" "s2" [Artist.mk "B"] (Album.mk "2001") "track"
              (ExternalUrls.mk "u2")) "t2"] 50 none)
      2 0
      = ([PlaylistedTrack.mk
            (Track.mk "a" "s1" [Artist.mk "A"] (Album.mk "1999") "track"
              (ExternalUrls.mk "u1")) "t1",
          PlaylistedTrack.mk
            (Track.mk "b" "s2" [Artist.mk "B"] (Album.mk "2001") "track"
              (ExternalUrls.mk "u2")) "t2"],
         [(50, 0), (50, 50)], true) := by
  have h := (C3_pagination
    (fun _ o => if o = 0
      then PageResult.mk
        [PlaylistedTrack.mk
          (Track.mk "a" "s1" [Artist.mk "A"] (Album.mk "1999") "track"
            (ExternalUrls.mk "u1")) "t1"] 50 (some "n")
      else PageResult.mk
        [PlaylistedTrack.mk
          (Track.mk "b" "s2" [Artist.mk "B"] (Album.mk "2001") "track"
            (ExternalUrls.mk "u2")) "t2"] 50 none)
    2 2 (by decide) (by decide) (by decide) (by decide)).1
  simpa using h

/-! ## C5: page groups, rows, mirrored back pages -/

theorem arrayChunks_cons {α : Type} (c : Nat) (hc : 0 < c) (l : List α)
    (hl : l ≠ []) :
    arrayChunks l c = l.take c :: arrayChunks (l.drop c) c := by
  have hn : 0 < l.length := List.length_pos.mpr hl
  have hceil : (l.length + c - 1) / c = ((l.drop c).length + c - 1) / c + 1 := by
    rw [List.length_drop]
    rcases Nat.le_total c l.length with h | h
    · have h1 : l.length + c - 1 = (l.length - c + c - 1) + c := by omega
      rw [h1, Nat.add_div_right _ hc]
    · have h2 : l.length - c = 0 := by omega
      have h3 : (l.length + c - 1) / c = 1 := by
        apply Nat.div_eq_of_lt_le
        · omega
        · omega
      have h4 : (0 + c - 1) / c = 0 := Nat.div_eq_of_lt (by omega)
      rw [h2, h3, h4]
  simp only [arrayChunks]
  rw [hceil, map_range_succ]
  congr 1
  · simp
  · congr 1
    funext i
    have hmul : Nat.succ i * c = c + i * c := by
      rw [Nat.succ_mul, Nat.add_comm]
    simp only [Function.comp_apply]
    rw [List.drop_drop, hmul]

theorem arrayChunks_flatten {α : Type} (c : Nat) (hc : 0 < c) :
    ∀ (l : List α), (arrayChunks l c).flatten = l
  | [] => by
    have h0 : (List.length ([] : List α) + c - 1) / c = 0 :=
      Nat.div_eq_of_lt (by simp; omega)
    simp [arrayChunks, h0]
  | a :: t => by
    rw [arrayChunks_cons c hc (a :: t) (by simp), List.flatten_cons,
      arrayChunks_flatten c hc ((a :: t).drop c)]
    exact List.take_append_drop c (a :: t)
termination_by l => l.length
decreasing_by
  simp only [List.length_drop, List.length_cons]
  omega

theorem arrayChunks_mem_length {α : Type} (c : Nat) (l : List α) :
    ∀ g ∈ arrayChunks l c, g.length ≤ c := by
  intro g hg
  simp only [arrayChunks, List.mem_map, List.mem_range] at hg
  obtain ⟨i, _, heq⟩ := hg
  rw [← heq]
  exact List.length_take_le c _

theorem backRows_flatten_length (g : List PlaylistedTrack) :
    (backRows g).flatten.length = g.length := by
  have h1 : (backRows g).flatten.length = (arrayChunks g 3).flatten.length := by
    simp [backRows, List.length_flatten, List.map_map, Function.comp_def]
  rw [h1, arrayChunks_flatten 3 (by omega) g]

/-- C5: the layout splits the entries into ceil(n/12) page groups of at most
12 entries preserving order (25 entries give groups of sizes 12, 12, 1);
every group splits into rows of at most 3 preserving order; the back page's
rows are exactly the front page's rows horizontally mirrored; and the back
page carries one card per entry actually present (no placeholder blanks). -/
theorem C5_layout (items : List PlaylistedTrack) :
    (pageGroups items).length = (items.length + 12 - 1) / 12
    ∧ (pageGroups items).flatten = items
    ∧ (∀ g ∈ pageGroups items, g.length ≤ 12)
    ∧ (∀ g ∈ pageGroups items,
        (frontRows g).flatten = g
        ∧ (∀ r ∈ frontRows g, r.length ≤ 3)
        ∧ backRows g = (frontRows g).map List.reverse
        ∧ (backRows g).flatten.length = g.length)
    ∧ (items.length = 25 → (pageGroups items).map List.length = [12, 12, 1]) := by
  refine ⟨?_, arrayChunks_flatten 12 (by omega) items,
    arrayChunks_mem_length 12 items, ?_, ?_⟩
  · simp [pageGroups, arrayChunks]
  · intro g hg
    refine ⟨arrayChunks_flatten 3 (by omega) g, arrayChunks_mem_length 3 g, rfl, ?_⟩
    exact backRows_flatten_length g
  · intro h25
    simp only [pageGroups, arrayChunks, h25]
    have h3 : (25 + 12 - 1) / 12 = 3 := by norm_num
    have hr : List.range 3 = [0, 1, 2] := by decide
    rw [h3, hr]
    simp [List.length_take, List.length_drop, h25]

theorem C5_layout_witness :
    (pageGroups (List.replicate 25
        (PlaylistedTrack.mk
          (Track.mk "a" "s" [Artist.mk "A"] (Album.mk "1999") "track"
            (ExternalUrls.mk "u")) "t"))).map List.length = [12, 12, 1] :=
  (C5_layout (List.replicate 25
      (PlaylistedTrack.mk
        (Track.mk "a" "s" [Artist.mk "A"] (Album.mk "1999") "track"
          (ExternalUrls.mk "u")) "t"))).2.2.2.2 (by simp)

/-! ## C6: the override textarea handler -/

/-- C6: when the entered text fails to parse as JSON, the handler surfaces
exactly the message `Invalid JSON!` and keeps the previously parsed override
value; when it parses, the parsed value replaces the stored one and the
error message is cleared. -/
theorem C6_invalid_json_stale {J : Type} (parse : String → Option J)
    (st : OverrideUiState J) (input : String) :
    (parse input = none →
      (handleOverrideChange parse st input).overrideJsonErrorMessage = "Invalid JSON!"
      ∧ (handleOverrideChange parse st input).overrideJsonValue
          = st.overrideJsonValue)
    ∧ (∀ v, parse input = some v →
      (handleOverrideChange parse st input).overrideJsonValue = v
      ∧ (handleOverrideChange parse st input).overrideJsonErrorMessage = "") := by
  constructor
  · intro h
    simp [handleOverrideChange, h]
  · intro v h
    simp [handleOverrideChange, h]

theorem C6_invalid_json_stale_witness :
    (handleOverrideChange (fun s => if s = "[]" then some 0 else none)
        (OverrideUiState.mk (7 : Nat) "" "old") "oops").overrideJsonErrorMessage
      = "Invalid JSON!"
    ∧ (handleOverrideChange (fun s => if s = "[]" then some 0 else none)
        (OverrideUiState.mk (7 : Nat) "" "old") "oops").overrideJsonValue = 7 :=
  (C6_invalid_json_stale (fun s => if s = "[]" then some 0 else none)
    (OverrideUiState.mk (7 : Nat) "" "old") "oops").1 (by decide)

/-! ## C7: the override index is last-write-wins -/

theorem getLast?_cons_of_ne_nil {α : Type} (a : α) (l : List α) (hl : l ≠ []) :
    (a :: l).getLast? = l.getLast? := by
  cases l with
  | nil => exact absurd rfl hl
  | cons b t => exact List.getLast?_cons_cons

theorem buildOverrides_foldl (k : String) :
    ∀ (l : List OverrideItem) (m : String → Option OverrideItem),
      l.foldl (fun m it => fun q => if q = deriveKey it.link then some it else m q) m k
        = match (l.filter (fun it => decide (deriveKey it.link = k))).getLast? with
          | some it => some it
          | none => m k := by
  intro l
  induction l with
  | nil => intro m; simp
  | cons a t ih =>
    intro m
    by_cases ha : deriveKey a.link = k
    · have hfil : (a :: t).filter (fun it => decide (deriveKey it.link = k))
          = a :: t.filter (fun it => decide (deriveKey it.link = k)) := by
        rw [List.filter_cons, if_pos (by simpa using ha)]
      rw [List.foldl_cons, ih, hfil]
      cases ht : (t.filter (fun it => decide (deriveKey it.link = k))).getLast? with
      | some it =>
        have hne : t.filter (fun it => decide (deriveKey it.link = k)) ≠ [] := by
          intro h0
          rw [h0] at ht
          simp at ht
        rw [getLast?_cons_of_ne_nil a _ hne, ht]
      | none =>
        have h0 : t.filter (fun it => decide (deriveKey it.link = k)) = [] :=
          List.getLast?_eq_none_iff.mp ht
        rw [h0, List.getLast?_singleton]
        have hk : k = deriveKey a.link := ha.symm
        simp [hk]
    · have hfil : (a :: t).filter (fun it => decide (deriveKey it.link = k))
          = t.filter (fun it => decide (deriveKey it.link = k)) := by
        rw [List.filter_cons]
        simp [ha]
      rw [List.foldl_cons, ih, hfil]
      cases ht : (t.filter (fun it => decide (deriveKey it.link = k))).getLast? with
      | some it => rfl
      | none =>
        have hne : ¬ (k = deriveKey a.link) := fun h => ha h.symm
        simp [hne]

/-- C7: the override index maps a key to the LAST item of the input list
whose derived key equals it (last write wins); a key derived by no item is
absent.  The index is a map, so keys are unique by construction. -/
theorem C7_last_write_wins (l : List OverrideItem) (k : String) :
    buildOverrides l k
      = (l.filter (fun it => decide (deriveKey it.link = k))).getLast? := by
  have h := buildOverrides_foldl k l (fun _ => none)
  simp only [buildOverrides]
  rw [h]
  cases (l.filter (fun it => decide (deriveKey it.link = k))).getLast? with
  | some it => rfl
  | none => rfl

/-! ## C8: non-matching URLs make the fetch a no-op -/

theorem playlistMatchAt_none_of_gt (s : List Char) (q : Nat) (hq : s.length < q) :
    playlistMatchAt s q = none := by
  have hdrop : s.drop q = [] := List.drop_eq_nil_of_le (by omega)
  have hlw : leadsWith playlistBase ([] : List Char) = none := rfl
  simp [playlistMatchAt, hdrop, hlw]

theorem scanFrom_none_elim (s : List Char) :
    ∀ (fuel p : Nat), scanFrom s fuel p = none →
      ∀ q, p ≤ q → q < p + fuel → playlistMatchAt s q = none := by
  intro fuel
  induction fuel with
  | zero => intro p h q h1 h2; omega
  | succ f ih =>
    intro p h q h1 h2
    rcases hm : playlistMatchAt s p with _ | r
    · have hrec : scanFrom s f (p + 1) = none := by
        simpa [scanFrom, hm] using h
      by_cases hq : q = p
      · rw [hq]; exact hm
      · exact ih (p + 1) hrec q (by omega) (by omega)
    · simp [scanFrom, hm] at h

theorem scanFrom_none_of_all (s : List Char)
    (hall : ∀ q, playlistMatchAt s q = none) :
    ∀ (fuel p : Nat), scanFrom s fuel p = none := by
  intro fuel
  induction fuel with
  | zero => intro p; rfl
  | succ f ih => intro p; simp [scanFrom, hall p, ih (p + 1)]

theorem execPlaylist_none (s : List Char)
    (h0 : scanFrom s (s.length + 1) 0 = none) (L : Nat) :
    execPlaylist s L = (none, 0) := by
  have hall : ∀ q, playlistMatchAt s q = none := by
    intro q
    by_cases hq : q ≤ s.length
    · exact scanFrom_none_elim s (s.length + 1) 0 h0 q (by omega) (by omega)
    · exact playlistMatchAt_none_of_gt s q (by omega)
  simp [execPlaylist, scanFrom_none_of_all s hall]

/-- C8: for a URL on which a fresh `playlistRegex.exec` finds no match, the
fetch no-ops: it issues no page request, surfaces no error message, and
leaves the displayed track list unchanged (only the regex's `lastIndex` is
reset to 0, which `exec` does on failure). -/
theorem C8_no_match_no_op (api : List Char → Nat → Nat → PageResult)
    (overrideJson : List OverrideItem) (fuel : Nat) (st : AppState) (url : String)
    (hnomatch : scanFrom url.data (url.data.length + 1) 0 = none) :
    getPlaylist api overrideJson fuel st url = ({ st with lastIndex := 0 }, []) := by
  have h := execPlaylist_none url.data hnomatch st.lastIndex
  simp [getPlaylist, h]

theorem C8_no_match_no_op_witness :
    getPlaylist (fun _ _ _ => PageResult.mk [] 50 none) [] 1
      (AppState.mk 5 none "") "hello" = (AppState.mk 0 none "", []) :=
  C8_no_match_no_op (fun _ _ _ => PageResult.mk [] 50 none) [] 1
    (AppState.mk 5 none "") "hello" (by decide)

/-! ## C9: the match decision is NOT a function of the URL alone

`playlistRegex` is declared once at module level with the `g` flag, so
`exec` keeps its `lastIndex` between calls of `getPlaylist`.  A successful
match on a single-line URL advances `lastIndex` to the end of the string,
so the immediately following invocation with the very same URL finds no
match and no-ops.  The closed theorem below evaluates the embedding at such
a failing input. -/

/-- C9: counter-evidence.  With the same URL
`https://open.spotify.com/playlist/abc` and the same API, the first
`getPlaylist` invocation matches (it issues the page request at offset 0
and commits a track list), while the second invocation, started from the
state the first one left behind, makes the opposite match decision: it
issues no request and leaves the list as it was. -/
theorem C9_stateful_exec_divergence :
    ((getPlaylist (fun _ _ _ => PageResult.mk [] 50 none) [] 1
        (AppState.mk 0 none "") "https://open.spotify.com/playlist/abc").2
      = [(50, 0)])
    ∧ ((getPlaylist (fun _ _ _ => PageResult.mk [] 50 none) [] 1
        (AppState.mk 0 none "") "https://open.spotify.com/playlist/abc").1.playlistItems
      = some [])
    ∧ ((getPlaylist (fun _ _ _ => PageResult.mk [] 50 none) [] 1
        (getPlaylist (fun _ _ _ => PageResult.mk [] 50 none) [] 1
          (AppState.mk 0 none "") "https://open.spotify.com/playlist/abc").1
        "https://open.spotify.com/playlist/abc").2
      = []) := by
  refine ⟨?_, ?_, ?_⟩ <;> decide

/-! ## C10: one scannable code per back-page card -/

theorem backCodes_group_length (ct : String) (g : List PlaylistedTrack) :
    ((backRows g).map
        (fun row => row.map (fun it => backCardCode ct it.track.id))).flatten.length
      = g.length := by
  have h1 : ((backRows g).map
        (fun row => row.map (fun it => backCardCode ct it.track.id))).flatten.length
      = (backRows g).flatten.length := by
    simp [List.length_flatten, List.map_map, Function.comp_def]
  rw [h1, backRows_flatten_length]

theorem backCodePages_total_length (ct : String) :
    ∀ (groups : List (List PlaylistedTrack)),
      (groups.map (fun g => (backRows g).map
          (fun row => row.map (fun it => backCardCode ct it.track.id)))).flatten.flatten.length
        = groups.flatten.length := by
  intro groups
  induction groups with
  | nil => rfl
  | cons g gs ih =>
    simp only [List.map_cons, List.flatten_cons, List.flatten_append,
      List.length_append, ih, backCodes_group_length ct g]

/-- C10: every back page carries exactly one code per present card (total
number of codes = number of entries), every code belongs to one of the
entries, and the code is selected by the toggle: payload
`spotify:track:<id>` for a QR code when the selection is `qr`, the remote
scannable image URL built from the same track id otherwise. -/
theorem C10_back_codes (items : List PlaylistedTrack) (ct : String) :
    ((backCodePages items ct).flatten.flatten.length = items.length)
    ∧ (∀ code ∈ (backCodePages items ct).flatten.flatten,
        ∃ it ∈ items, code = backCardCode ct it.track.id)
    ∧ (∀ tid : String, backCardCode "qr" tid
        = CardCode.qr ("spotify:track:" ++ tid))
    ∧ (∀ tid : String, ct ≠ "qr" →
        backCardCode ct tid = CardCode.scannable
          ("https://scannables.scdn.co/uri/plain/jpeg/FFFFFF/black/320/spotify:track:"
            ++ tid)) := by
  refine ⟨?_, ?_, ?_, ?_⟩
  · calc (backCodePages items ct).flatten.flatten.length
        = (pageGroups items).flatten.length :=
          backCodePages_total_length ct (pageGroups items)
      _ = items.length := by
          rw [show (pageGroups items).flatten = items from
            arrayChunks_flatten 12 (by omega) items]
  · intro code hc
    simp only [backCodePages] at hc
    obtain ⟨l, hl, hcl⟩ := List.mem_flatten.mp hc
    obtain ⟨pg, hpg, hlpg⟩ := List.mem_flatten.mp hl
    obtain ⟨g, hg, rfl⟩ := List.mem_map.mp hpg
    obtain ⟨row, hrow, rfl⟩ := List.mem_map.mp hlpg
    obtain ⟨it, hit, rfl⟩ := List.mem_map.mp hcl
    have hchunk : row.reverse ∈ arrayChunks g 3 := by simpa [backRows] using hrow
    have hit2 : it ∈ row.reverse := List.mem_reverse.mpr hit
    have hitg : it ∈ g := by
      have hfl : (arrayChunks g 3).flatten = g := arrayChunks_flatten 3 (by omega) g
      rw [← hfl]
      exact List.mem_flatten.mpr ⟨row.reverse, hchunk, hit2⟩
    have hitems : it ∈ items := by
      have hfl : (pageGroups items).flatten = items :=
        arrayChunks_flatten 12 (by omega) items
      rw [← hfl]
      exact List.mem_flatten.mpr ⟨g, hg, hitg⟩
    exact ⟨it, hitems, rfl⟩
  · intro tid
    simp [backCardCode]
  · intro tid h
    simp [backCardCode, h]

theorem C10_back_codes_witness :
    backCardCode "spotify" "ID" = CardCode.scannable
      ("https://scannables.scdn.co/uri/plain/jpeg/FFFFFF/black/320/spotify:track:"
        ++ "ID") :=
  (C10_back_codes [] "spotify").2.2.2 "ID" (by decide)

end TuneQuest
